import Mathlib

/-
  Verification development for the Guza_Mulima hike-telemetry scripts
  (map.py, map2.py, map3.py).

  The three Python scripts are shallowly embedded below:
  - shared stdlib behaviour (str.strip, str.rstrip, int(), json.loads)
    is modelled once at top level;
  - the per-file parsers and metric computations live in the namespaces
    MapPy, Map2 and Map3, mirroring map.py, map2.py and map3.py;
  - Python's raised exceptions are modelled by Except values, floats by
    exact numbers (rationals for data, reals for the trigonometric
    haversine computation), and JSON numbers by a mantissa/decimal
    exponent pair (the scripts only ever compare JSON numbers with 0).
-/

deriving instance DecidableEq for Except

/-- Python exception kinds that the embedded code can raise. -/
inductive PyErr where
  | keyError
  | typeError
  | attributeError
  | zeroDivisionError
  | valueError
  deriving DecidableEq, Repr

/-- ASCII whitespace as recognised by Python's str.strip and the regex
class \s (space, tab, newline, carriage return, vertical tab, form feed). -/
def isPySpace (c : Char) : Bool :=
  c = ' ' || c = '\t' || c = '\n' || c = '\r' || c = '\x0b' || c = '\x0c'

/-- JSON inter-token whitespace as used by Python's json decoder. -/
def isJsonWs (c : Char) : Bool :=
  c = ' ' || c = '\t' || c = '\n' || c = '\r'

/-- The character left brace, written by code point to keep it out of
string literals. -/
def lbrace : Char := '\x7b'

/-- The character right brace, written by code point. -/
def rbrace : Char := '\x7d'

/-- Python str.strip() on a character list: drop ASCII whitespace from
both ends. -/
def stripL (cs : List Char) : List Char :=
  ((cs.dropWhile isPySpace).reverse.dropWhile isPySpace).reverse

/-- Python s.rstrip(",") on a character list: drop all trailing commas. -/
def rstripCommaL (cs : List Char) : List Char :=
  (cs.reverse.dropWhile (· = ',')).reverse

/-- Python s.split(":") on a character list: split on every colon,
keeping empty parts (so the empty input yields one empty part). -/
def splitOnColon : List Char → List (List Char)
  | [] => [[]]
  | ':' :: rest => [] :: splitOnColon rest
  | c :: rest =>
    match splitOnColon rest with
    | p :: ps => (c :: p) :: ps
    | [] => [[c]]

/-- Accumulate a run of decimal digits; fails on a non-digit. -/
def pyIntDigits (acc : ℕ) : List Char → Option ℕ
  | [] => some acc
  | c :: rest =>
    if c.isDigit then pyIntDigits (acc * 10 + (c.toNat - 48)) rest else none

/-- Python int(str) on a character list: strip whitespace, allow one
optional sign, then require a non-empty run of decimal digits.
ValueError is modelled as none. -/
def pyIntL (cs : List Char) : Option ℤ :=
  match stripL cs with
  | [] => none
  | '-' :: rest =>
    match rest with
    | [] => none
    | _ => (pyIntDigits 0 rest).map (fun n => -(n : ℤ))
  | '+' :: rest =>
    match rest with
    | [] => none
    | _ => (pyIntDigits 0 rest).map (fun n => (n : ℤ))
  | cs' => (pyIntDigits 0 cs').map (fun n => (n : ℤ))

/-- The list comprehension [int(p) for p in parts]: convert each part,
aborting with ValueError (none) at the first failure. -/
def pyIntList : List (List Char) → Option (List ℤ)
  | [] => some []
  | p :: rest =>
    match pyIntL p with
    | none => none
    | some v => (pyIntList rest).map (v :: ·)

/-- A decoded JSON value as produced by Python's json.loads.  Numbers
are kept as an integer mantissa and a decimal exponent (value
m * 10 ^ e); the scripts only ever compare JSON numbers against 0,
which depends on the mantissa alone.  Objects keep their key/value
pairs in source order; lookups take the last binding of a key, like a
Python dict built with repeated assignments. -/
inductive JVal where
  | null
  | bool (b : Bool)
  | num (m : ℤ) (e : ℤ)
  | str (s : String)
  | arr (es : List JVal)
  | obj (fs : List (String × JVal))

/-- Skip JSON inter-token whitespace. -/
def skipWs (cs : List Char) : List Char :=
  cs.dropWhile isJsonWs

/-- Value of a hexadecimal digit. -/
def hexVal (c : Char) : Option ℕ :=
  if c.isDigit then some (c.toNat - 48)
  else if 'a' ≤ c ∧ c ≤ 'f' then some (c.toNat - 87)
  else if 'A' ≤ c ∧ c ≤ 'F' then some (c.toNat - 55)
  else none

/-- The body of a JSON string, after its opening quote: plain characters
up to the closing quote, with the standard escapes; raw control
characters below 0x20 are rejected, as in Python's strict mode.
Returns the string contents and the input after the closing quote. -/
def parseStrChars : List Char → Except String (List Char × List Char)
  | [] => .error "Unterminated string"
  | '"' :: rest => .ok ([], rest)
  | '\\' :: rest =>
    match rest with
    | '"' :: r => (parseStrChars r).map (fun p => ('"' :: p.1, p.2))
    | '\\' :: r => (parseStrChars r).map (fun p => ('\\' :: p.1, p.2))
    | '/' :: r => (parseStrChars r).map (fun p => ('/' :: p.1, p.2))
    | 'b' :: r => (parseStrChars r).map (fun p => ('\x08' :: p.1, p.2))
    | 'f' :: r => (parseStrChars r).map (fun p => ('\x0c' :: p.1, p.2))
    | 'n' :: r => (parseStrChars r).map (fun p => ('\n' :: p.1, p.2))
    | 'r' :: r => (parseStrChars r).map (fun p => ('\r' :: p.1, p.2))
    | 't' :: r => (parseStrChars r).map (fun p => ('\t' :: p.1, p.2))
    | 'u' :: a :: b :: c :: d :: r =>
      match hexVal a, hexVal b, hexVal c, hexVal d with
      | some ha, some hb, some hc, some hd =>
        (parseStrChars r).map
          (fun p => (Char.ofNat (((ha * 16 + hb) * 16 + hc) * 16 + hd) :: p.1, p.2))
      | _, _, _, _ => .error "Invalid hex escape"
    | _ => .error "Invalid escape"
  | c :: rest =>
    if c.toNat < 32 then .error "Invalid control character"
    else (parseStrChars rest).map (fun p => (c :: p.1, p.2))

/-- Consume a run of decimal digits, returning the accumulated value,
the number of digits consumed, and the rest of the input. -/
def digitsCount (acc : ℕ) (k : ℕ) : List Char → ℕ × ℕ × List Char
  | [] => (acc, k, [])
  | c :: rest =>
    if c.isDigit then digitsCount (acc * 10 + (c.toNat - 48)) (k + 1) rest
    else (acc, k, c :: rest)

/-- Fraction and exponent parts of a JSON number, following Python's
NUMBER_RE: an optional dot with at least one digit, then an optional
e/E with optional sign and at least one digit; an incomplete part is
left unconsumed.  Given the (unsigned) integer part i, returns the
mantissa/decimal-exponent pair and the rest of the input. -/
def numFracExp (neg : Bool) (i : ℕ) (cs : List Char) : (ℤ × ℤ) × List Char :=
  let fr : ℕ × ℕ × List Char :=
    match cs with
    | '.' :: d :: r =>
      if d.isDigit then
        let t := digitsCount (d.toNat - 48) 1 r
        (i * 10 ^ t.2.1 + t.1, t.2.1, t.2.2)
      else (i, 0, cs)
    | _ => (i, 0, cs)
  let ex : ℤ × List Char :=
    match fr.2.2 with
    | c :: r =>
      if c = 'e' ∨ c = 'E' then
        match r with
        | '+' :: d :: r2 =>
          if d.isDigit then
            let t := digitsCount (d.toNat - 48) 1 r2
            ((t.1 : ℤ), t.2.2)
          else (0, fr.2.2)
        | '-' :: d :: r2 =>
          if d.isDigit then
            let t := digitsCount (d.toNat - 48) 1 r2
            (-(t.1 : ℤ), t.2.2)
          else (0, fr.2.2)
        | d :: r2 =>
          if d.isDigit then
            let t := digitsCount (d.toNat - 48) 1 r2
            ((t.1 : ℤ), t.2.2)
          else (0, fr.2.2)
        | [] => (0, fr.2.2)
      else (0, fr.2.2)
    | [] => (0, fr.2.2)
  let m : ℤ := if neg then -(fr.1 : ℤ) else (fr.1 : ℤ)
  ((m, ex.1 - (fr.2.1 : ℤ)), ex.2)

/-- A JSON number, following Python's NUMBER_RE: optional minus, an
integer part that is 0 or starts with a nonzero digit, then fraction
and exponent.  Returns mantissa, decimal exponent and the rest. -/
def parseNumber (cs : List Char) : Except String ((ℤ × ℤ) × List Char) :=
  let sg : Bool × List Char :=
    match cs with
    | '-' :: r => (true, r)
    | _ => (false, cs)
  match sg.2 with
  | '0' :: r1 => .ok (numFracExp sg.1 0 r1)
  | c :: r1 =>
    if c.isDigit then
      let t := digitsCount (c.toNat - 48) 1 r1
      .ok (numFracExp sg.1 t.1 t.2.2)
    else .error "Expecting value"
  | [] => .error "Expecting value"

/-- Match a literal keyword (true/false/null) and yield its value. -/
def expectLit (v : JVal) : List Char → List Char → Except String (JVal × List Char)
  | [], cs => .ok (v, cs)
  | l :: ls, c :: cs => if c = l then expectLit v ls cs else .error "Expecting value"
  | _ :: _, [] => .error "Expecting value"

mutual

/-- A JSON value, positioned at its first character (no leading
whitespace).  Fuel bounds the recursion; json_loadsL supplies enough
for any input.  NaN/Infinity constants, accepted by Python as an
extension, are not modelled (the inputs of interest never use them). -/
def parseVal : ℕ → List Char → Except String (JVal × List Char)
  | 0, _ => .error "Fuel exhausted"
  | _ + 1, [] => .error "Expecting value"
  | fuel + 1, c :: rest =>
    if c = lbrace then
      match skipWs rest with
      | c2 :: r2 =>
        if c2 = rbrace then .ok (.obj [], r2)
        else (parseObjItems fuel (c2 :: r2)).map (fun p => (.obj p.1, p.2))
      | [] => .error "Expecting property name"
    else if c = '[' then
      match skipWs rest with
      | ']' :: r2 => .ok (.arr [], r2)
      | cs2 => (parseArrItems fuel cs2).map (fun p => (.arr p.1, p.2))
    else if c = '"' then
      (parseStrChars rest).map (fun p => (.str (String.mk p.1), p.2))
    else if c = 't' then expectLit (.bool true) ['r', 'u', 'e'] rest
    else if c = 'f' then expectLit (.bool false) ['a', 'l', 's', 'e'] rest
    else if c = 'n' then expectLit .null ['u', 'l', 'l'] rest
    else (parseNumber (c :: rest)).map (fun p => (.num p.1.1 p.1.2, p.2))

/-- The members of a JSON object, positioned at the first key (after
whitespace), for a non-empty object. -/
def parseObjItems : ℕ → List Char → Except String (List (String × JVal) × List Char)
  | 0, _ => .error "Fuel exhausted"
  | fuel + 1, cs =>
    match cs with
    | '"' :: rest =>
      match parseStrChars rest with
      | .error e => .error e
      | .ok (k, r1) =>
        match skipWs r1 with
        | ':' :: r2 =>
          match parseVal fuel (skipWs r2) with
          | .error e => .error e
          | .ok (v, r3) =>
            match skipWs r3 with
            | ',' :: r4 =>
              (parseObjItems fuel (skipWs r4)).map
                (fun p => ((String.mk k, v) :: p.1, p.2))
            | c :: r4 =>
              if c = rbrace then .ok ([(String.mk k, v)], r4)
              else .error "Expecting comma delimiter"
            | [] => .error "Expecting comma delimiter"
        | _ => .error "Expecting colon delimiter"
    | _ => .error "Expecting property name"

/-- The elements of a JSON array, positioned at the first element
(after whitespace), for a non-empty array. -/
def parseArrItems : ℕ → List Char → Except String (List JVal × List Char)
  | 0, _ => .error "Fuel exhausted"
  | fuel + 1, cs =>
    match parseVal fuel cs with
    | .error e => .error e
    | .ok (v, r1) =>
      match skipWs r1 with
      | ',' :: r2 => (parseArrItems fuel (skipWs r2)).map (fun p => (v :: p.1, p.2))
      | ']' :: r2 => .ok ([v], r2)
      | _ => .error "Expecting comma delimiter"

end

/-- Python json.loads on a character list: skip leading whitespace,
parse one value, require only whitespace after it. -/
def json_loadsL (cs : List Char) : Except String JVal :=
  let cs1 := skipWs cs
  match parseVal (cs1.length + 1) cs1 with
  | .error e => .error e
  | .ok (v, rest) => if skipWs rest = [] then .ok v else .error "Extra data"

/-- Python json.loads on a string. -/
def json_loads (s : String) : Except String JVal :=
  json_loadsL s.toList

/-- Look up a key in a decoded object's pair list; the last binding
wins, matching Python dict construction with duplicate keys. -/
def lookupLast (fs : List (String × JVal)) (k : String) : Option JVal :=
  match fs with
  | [] => none
  | kv :: rest =>
    match lookupLast rest k with
    | some v => some v
    | none => if kv.1 = k then some kv.2 else none

/-- Python `k in p` for a decoded object. -/
def hasKeyB (fs : List (String × JVal)) (k : String) : Bool :=
  (lookupLast fs k).isSome

/-- Python `v == 0` for a decoded JSON value: true for the numbers 0
and 0.0 and for False (which equals 0 in Python); strings, None,
lists and objects never equal 0. -/
def pyEqZero : JVal → Bool
  | .num m _ => m == 0
  | .bool b => !b
  | _ => false

namespace Map3

/-- map3.py time_to_seconds: the parts of t.strip().split(":"). -/
def timeParts (t : String) : List (List Char) :=
  splitOnColon (stripL t.toList)

/-- map3.py time_to_seconds: the while-loop that inserts leading zeros
until the component list has length 3 (it pads shorter lists to
exactly three components and leaves longer lists untouched). -/
def padTo3 : List ℤ → List ℤ
  | [] => [0, 0, 0]
  | [a] => [0, 0, a]
  | [a, b] => [0, a, b]
  | ps => ps

/-- map3.py time_to_seconds: split the timestamp on colons, convert each
part with int() (ValueError on failure), left-pad with zeros to three
components, and unpack as hours, minutes, seconds (unpacking a list of
more than three components raises ValueError). -/
def time_to_seconds (t : String) : Except PyErr ℤ :=
  match pyIntList (timeParts t) with
  | none => .error .valueError
  | some ps =>
    match padTo3 ps with
    | [h, m, s] => .ok (h * 3600 + m * 60 + s)
    | _ => .error .valueError

end Map3

/-- The per-fragment body of the identical parse loops of map.py and
map2.py: strip the fragment, skip it unless it starts with a left
brace, append a right brace unless it ends with one, then json.loads
it; a successful decode is appended to the data list, a decode error
appends a diagnostic (the first 100 characters of the repaired
fragment and the failure reason) instead of aborting. -/
def processFrag (acc : List JVal × List (List Char × String)) (obj : List Char) :
    List JVal × List (List Char × String) :=
  let o1 := stripL obj
  if o1.head? = some lbrace then
    let o2 := if o1.getLast? = some rbrace then o1 else o1 ++ [rbrace]
    match json_loadsL o2 with
    | .ok v => (acc.1 ++ [v], acc.2)
    | .error e => (acc.1, acc.2 ++ [(o2.take 100, e)])
  else acc

/-- The whole fragment loop of map.py / map2.py: fold processFrag over
the regex matches, accumulating decoded objects and diagnostics in
order. -/
def processFrags (frags : List (List Char)) : List JVal × List (List Char × String) :=
  frags.foldl processFrag ([], [])

namespace MapPy

/-- The regex lookahead (?=\s*,\s*\x7b|$) of map.py: succeeds at end of
input (or before a final newline, re's other meaning of $ outside
MULTILINE), or when whitespace, a comma, whitespace and a left brace
follow. -/
def lookaheadOk (cs : List Char) : Bool :=
  match cs with
  | [] => true
  | ['\n'] => true
  | _ =>
    match cs.dropWhile isPySpace with
    | ',' :: cs2 =>
      match cs2.dropWhile isPySpace with
      | c :: _ => c = lbrace
      | [] => false
    | _ => false

/-- State machine equivalent of re.findall with map.py's pattern
\x7b.*?\x7d(?=\s*,\s*\x7b|$) under DOTALL.  The state is none while
scanning for a left brace (positions at other characters can never
start a match) and some body while inside a non-greedy candidate that
began at the most recent unmatched left brace, with the consumed
characters in reverse.  A right brace ends the match only when the
lookahead holds, exactly the first acceptable end of the non-greedy
repetition; otherwise it is consumed like any other character.  If the
input ends while inside a candidate, the candidate has no acceptable
end at all; no later start inside it can match either, because a match
from an inner left brace would need a lookahead-accepted right brace
further on, which would equally have ended the outer candidate.
findall's scan resumes right after each match, which is where the
machine returns to the none state. -/
def findallAux : List Char → Option (List Char) → List (List Char)
  | [], _ => []
  | c :: rest, none =>
    if c = lbrace then findallAux rest (some []) else findallAux rest none
  | c :: rest, some body =>
    if c = rbrace then
      if lookaheadOk rest then
        (lbrace :: body.reverse ++ [rbrace]) :: findallAux rest none
      else findallAux rest (some (rbrace :: body))
    else findallAux rest (some (c :: body))

/-- All matches of map.py's object regex, in order. -/
def findallObjects (cs : List Char) : List (List Char) :=
  findallAux cs none

/-- map.py line 36, [point for point in data if point[lat-key] != 0 or
point[lng-key] != 0]: a missing key raises KeyError (and a non-dict
element would raise TypeError); Python's `or` is short-circuit, so lng
is only looked up when lat equals 0. -/
def pyFilterLatLng : List JVal → Except PyErr (List JVal)
  | [] => .ok []
  | p :: rest =>
    match p with
    | .obj fs =>
      match lookupLast fs "lat" with
      | none => .error .keyError
      | some la =>
        if pyEqZero la then
          match lookupLast fs "lng" with
          | none => .error .keyError
          | some lnv =>
            if pyEqZero lnv then pyFilterLatLng rest
            else (pyFilterLatLng rest).map (p :: ·)
        else (pyFilterLatLng rest).map (p :: ·)
    | _ => .error .typeError

/-- map.py load_hike_data on the file contents: strip the text, strip
trailing commas, find the object-regex matches, decode each fragment
(collecting diagnostics for failures), then filter on the lat/lng
coordinates. -/
def loadHikeDataL (cs : List Char) : Except PyErr (List JVal × List (List Char × String)) :=
  let content := rstripCommaL (stripL cs)
  let pd := processFrags (findallObjects content)
  (pyFilterLatLng pd.1).map (fun recs => (recs, pd.2))

/-- map.py load_hike_data, taking the raw text as a string. -/
def load_hike_data (text : String) : Except PyErr (List JVal × List (List Char × String)) :=
  loadHikeDataL text.toList

end MapPy

namespace Map2

/-- State machine equivalent of re.findall with map2.py's pattern
\x7b[^\x7b\x7d]*\x7d.  Inside a candidate, a right brace always ends
the match; a left brace kills the candidate (the character class
cannot consume it), and since every position strictly between the two
braces fails immediately, the scan effectively restarts at the inner
left brace. -/
def findallAux : List Char → Option (List Char) → List (List Char)
  | [], _ => []
  | c :: rest, none =>
    if c = lbrace then findallAux rest (some []) else findallAux rest none
  | c :: rest, some body =>
    if c = rbrace then (lbrace :: body.reverse ++ [rbrace]) :: findallAux rest none
    else if c = lbrace then findallAux rest (some [])
    else findallAux rest (some (c :: body))

/-- All matches of map2.py's object regex, in order. -/
def findallObjects (cs : List Char) : List (List Char) :=
  findallAux cs none

/-- map2.py line 36, [point for point in data if point.get(lat-key, 1)
!= 0 or point.get(lng-key, 1) != 0]: .get supplies the default 1 for a
missing key, so no KeyError is possible (a non-dict element would
raise AttributeError, modelled for completeness though fragments
always decode to objects). -/
def pyFilterGet : List JVal → Except PyErr (List JVal)
  | [] => .ok []
  | p :: rest =>
    match p with
    | .obj fs =>
      if !pyEqZero ((lookupLast fs "lat").getD (.num 1 0)) ||
          !pyEqZero ((lookupLast fs "lng").getD (.num 1 0)) then
        (pyFilterGet rest).map (p :: ·)
      else pyFilterGet rest
    | _ => .error .attributeError

/-- map2.py load_data on the file contents. -/
def loadDataL (cs : List Char) : Except PyErr (List JVal × List (List Char × String)) :=
  let content := rstripCommaL (stripL cs)
  let pd := processFrags (findallObjects content)
  (pyFilterGet pd.1).map (fun recs => (recs, pd.2))

/-- map2.py load_data, taking the raw text as a string. -/
def load_data (text : String) : Except PyErr (List JVal × List (List Char × String)) :=
  loadDataL text.toList

end Map2

namespace Map3

/-- map3.py load_data's validity filter: isinstance(p, dict) and
lat-key in p and lng-key in p and (p[lat-key] != 0 or p[lng-key] != 0),
with Python's short-circuit evaluation. -/
def validPoint3 : JVal → Bool
  | .obj fs =>
    hasKeyB fs "lat" && hasKeyB fs "lng" &&
      (!pyEqZero ((lookupLast fs "lat").getD .null) ||
        !pyEqZero ((lookupLast fs "lng").getD .null))
  | _ => false

/-- The elements of a decoded JSON array (Python would iterate other
values differently, but the bracket-wrapped text always decodes to an
array). -/
def jElems : JVal → List JVal
  | .arr es => es
  | _ => []

/-- map3.py load_data's text preparation: strip, drop one trailing
comma if present, and wrap the whole text in square brackets. -/
def wrapped3 (cs : List Char) : List Char :=
  let t1 := stripL cs
  let t2 := if t1.getLast? = some ',' then t1.dropLast else t1
  '[' :: t2 ++ [']']

/-- The records map3.py's single json.loads call decodes, before
filtering; empty when the decode fails. -/
def decoded3 (cs : List Char) : List JVal :=
  match json_loadsL (wrapped3 cs) with
  | .ok v => jElems v
  | .error _ => []

/-- map3.py load_data on the file contents: one json.loads of the
wrapped text; any decode error prints the error and returns the empty
list (second component: the printed error, if any); otherwise the
decoded records filtered by validPoint3. -/
def loadDataL (cs : List Char) : List JVal × Option String :=
  match json_loadsL (wrapped3 cs) with
  | .error e => ([], some e)
  | .ok v => ((jElems v).filter validPoint3, none)

/-- map3.py load_data, taking the raw text as a string. -/
def load_data (text : String) : List JVal × Option String :=
  loadDataL text.toList

end Map3

/-- Python math.atan2(y, x), the two-argument arctangent (C99
semantics; signed zeros are not distinguishable in the real-number
model).  map3.py only ever calls it with both arguments non-negative. -/
noncomputable def atan2 (y x : ℝ) : ℝ :=
  if 0 < x then Real.arctan (y / x)
  else if x < 0 then
    if 0 ≤ y then Real.arctan (y / x) + Real.pi
    else Real.arctan (y / x) - Real.pi
  else if 0 < y then Real.pi / 2
  else if y < 0 then -(Real.pi / 2)
  else 0

/-- Python math.radians: degrees to radians. -/
noncomputable def radians (d : ℝ) : ℝ :=
  d * (Real.pi / 180)

namespace Map3

/-- The intermediate quantity a of map3.py's haversine:
sin(dLat/2)^2 + cos(lat1) * cos(lat2) * sin(dLon/2)^2 in radians. -/
noncomputable def havA (lon1 lat1 lon2 lat2 : ℝ) : ℝ :=
  Real.sin (radians (lat2 - lat1) / 2) ^ 2 +
    Real.cos (radians lat1) * Real.cos (radians lat2) *
      Real.sin (radians (lon2 - lon1) / 2) ^ 2

/-- map3.py haversine: great-circle distance in km between two
lon/lat pairs, Earth radius R = 6371 km,
c = 2 * atan2(sqrt(a), sqrt(1 - a)), result R * c.  Floats are
modelled by the reals. -/
noncomputable def haversine (lon1 lat1 lon2 lat2 : ℝ) : ℝ :=
  6371 * (2 * atan2 (Real.sqrt (havA lon1 lat1 lon2 lat2))
    (Real.sqrt (1 - havA lon1 lat1 lon2 lat2)))

end Map3

/-- A parsed record as consumed by the metric computations, typed per
the data model: numeric coordinates, a timestamp string and an
optional altitude.  (A decoded dict lacking the timestamp key or with
non-numeric coordinates would raise before these computations; those
shapes are outside this typed view.) -/
structure Pt where
  lat : ℝ
  lng : ℝ
  timestamp : String
  altitude? : Option ℚ

/-- Default record used by positional lookups in statements. -/
def ptDflt : Pt :=
  ⟨0, 0, "", none⟩

namespace Map3

/-- time_to_seconds as an integer, defaulting to 0 on error; used only
to state what the loop computes when every timestamp parses. -/
def t2sD (p : Pt) : ℤ :=
  match time_to_seconds p.timestamp with
  | .ok v => v
  | .error _ => 0

/-- map3.py lines 63-79: the per-step loop over consecutive records,
carrying the previous record and the accumulated distance.  Each step
computes dist = haversine(prev.lng, prev.lat, curr.lng, curr.lat),
appends the new cumulative distance, converts both timestamps (a
ValueError propagates and aborts the run), floors dt at 1 second and
appends speed = dist / dt * 3600. -/
noncomputable def metricsAux (prev : Pt) (dacc : ℝ) :
    List Pt → Except PyErr (List ℝ × List ℝ)
  | [] => .ok ([], [])
  | curr :: rest =>
    match time_to_seconds curr.timestamp, time_to_seconds prev.timestamp with
    | .ok tc, .ok tp =>
      match metricsAux curr (dacc + haversine prev.lng prev.lat curr.lng curr.lat) rest with
      | .ok (ds, ss) =>
        .ok ((dacc + haversine prev.lng prev.lat curr.lng curr.lat) :: ds,
          (haversine prev.lng prev.lat curr.lng curr.lat /
            ((max (tc - tp) 1 : ℤ) : ℝ) * 3600) :: ss)
      | .error e => .error e
    | .error e, _ => .error e
    | .ok _, .error e => .error e

/-- map3.py lines 61-79: distances = [0], speeds = [0], then the loop
over indices 1..n-1.  Returns the two lists, or the ValueError a
malformed timestamp raises. -/
noncomputable def metrics : List Pt → Except PyErr (List ℝ × List ℝ)
  | [] => .ok ([0], [0])
  | p :: rest =>
    match metricsAux p 0 rest with
    | .ok (ds, ss) => .ok (0 :: ds, 0 :: ss)
    | .error e => .error e

/-- The pure cumulative-distance tail: what the distance components of
metricsAux compute (they never depend on the timestamps). -/
noncomputable def distAux (prev : Pt) (dacc : ℝ) : List Pt → List ℝ
  | [] => []
  | curr :: rest =>
    (dacc + haversine prev.lng prev.lat curr.lng curr.lat) ::
      distAux curr (dacc + haversine prev.lng prev.lat curr.lng curr.lat) rest

/-- The pure speed tail: what the speed components of metricsAux
compute when every timestamp parses. -/
noncomputable def speedAux (prev : Pt) : List Pt → List ℝ
  | [] => []
  | curr :: rest =>
    (haversine prev.lng prev.lat curr.lng curr.lat /
        ((max (t2sD curr - t2sD prev) 1 : ℤ) : ℝ) * 3600) ::
      speedAux curr rest

/-- map3.py line 81 (and map2.py line 57): altitudes =
[p.get(altitude-key, 0) for p in hike_data]; a missing altitude
defaults to 0. -/
def altitudes (pts : List Pt) : List ℚ :=
  pts.map (fun p => p.altitude?.getD 0)

end Map3

namespace MapPy

/-- map.py line 52: altitudes = [p[altitude-key] for p in hike_data];
subscripting a record without the key raises KeyError. -/
def altitudes : List Pt → Except PyErr (List ℚ)
  | [] => .ok []
  | p :: rest =>
    match p.altitude? with
    | some a => (altitudes rest).map (a :: ·)
    | none => .error .keyError

/-- map.py get_color, lines 55-58: normalized =
(alt - min_alt) / (max_alt - min_alt); Python division raises
ZeroDivisionError when the denominator is 0, modelled by the error
branch.  The function's value is the returned hue 120 * (1 -
normalized); wrapping it in the hsl(...) string is presentation glue
and is not modelled. -/
def get_color (alt min_alt max_alt : ℚ) : Except PyErr ℚ :=
  if max_alt - min_alt = 0 then .error .zeroDivisionError
  else .ok (120 * (1 - (alt - min_alt) / (max_alt - min_alt)))

end MapPy

/-- Comma-join a list of fragments, as character lists; used to state
the resilience properties over structured inputs. -/
def charIntercalate : List (List Char) → List Char
  | [] => []
  | [f] => f
  | f :: g :: rest => f ++ ',' :: charIntercalate (g :: rest)

/-- The decoded object of a fragment, when json.loads accepts it. -/
def decodedOk (cs : List Char) : Option JVal :=
  (json_loadsL cs).toOption

/-- The diagnostic the fragment loop would record for a fragment, when
json.loads rejects it. -/
def diagOf (cs : List Char) : Option (List Char × String) :=
  match json_loadsL cs with
  | .error e => some (cs.take 100, e)
  | .ok _ => none

/-- A decoded value that passes map.py's coordinate filter without
raising: an object with lat and lng bindings that are not both equal
to 0. -/
def isGoodRecord : JVal → Bool
  | .obj fs =>
    match lookupLast fs "lat", lookupLast fs "lng" with
    | some la, some lnv => !pyEqZero la || !pyEqZero lnv
    | _, _ => false
  | _ => false

/-- A fragment that decodes to a good record. -/
def isGoodFrag (cs : List Char) : Bool :=
  match json_loadsL cs with
  | .ok v => isGoodRecord v
  | .error _ => false

/-
  Theorems.  Helper lemmas come first, then one theorem per claim
  (with witnesses and counterexamples where required).
-/

theorem padTo3_two (m s : ℤ) : Map3.padTo3 [m, s] = [0, m, s] := rfl

theorem padTo3_one (s : ℤ) : Map3.padTo3 [s] = [0, 0, s] := rfl

/-- C2: time_to_seconds does not treat a malformed timestamp as
00:00:00 — the string "bad" raises ValueError rather than yielding 0
seconds, and a single-component string yields its value in seconds
rather than 0. -/
theorem c2_counterexample :
    Map3.time_to_seconds "bad" = .error PyErr.valueError ∧
      Map3.time_to_seconds "45" = .ok 45 ∧
      Map3.time_to_seconds "bad" ≠ .ok 0 := by
  refine ⟨by rfl, by rfl, ?_⟩
  intro h
  exact absurd h (by decide)

/-- C2 (amended): time_to_seconds splits on colons and converts every
component with int(); two numeric components read as MM:SS and three
as HH:MM:SS, as claimed, but a single component reads as plain
seconds, and a component that fails numeric parsing, or more than
three components, raises ValueError (aborting the run) instead of
being treated as 00:00:00. -/
theorem c2_amended :
    (∀ t m s, pyIntList (Map3.timeParts t) = some [m, s] →
        Map3.time_to_seconds t = .ok (m * 60 + s)) ∧
    (∀ t hh m s, pyIntList (Map3.timeParts t) = some [hh, m, s] →
        Map3.time_to_seconds t = .ok (hh * 3600 + m * 60 + s)) ∧
    (∀ t s, pyIntList (Map3.timeParts t) = some [s] →
        Map3.time_to_seconds t = .ok s) ∧
    (∀ t, pyIntList (Map3.timeParts t) = none →
        Map3.time_to_seconds t = .error PyErr.valueError) ∧
    (∀ t ps, pyIntList (Map3.timeParts t) = some ps → 3 < ps.length →
        Map3.time_to_seconds t = .error PyErr.valueError) ∧
    Map3.time_to_seconds "05:30" = .ok 330 ∧
    Map3.time_to_seconds "01:05:30" = .ok 3930 := by
  refine ⟨?_, ?_, ?_, ?_, ?_, by rfl, by rfl⟩
  · intro t m s h
    simp [Map3.time_to_seconds, h, Map3.padTo3]
  · intro t hh m s h
    simp [Map3.time_to_seconds, h, Map3.padTo3]
  · intro t s h
    simp [Map3.time_to_seconds, h, Map3.padTo3]
  · intro t h
    simp [Map3.time_to_seconds, h]
  · intro t ps h hlen
    match ps, hlen with
    | a :: b :: c :: d :: ps', _ =>
      simp [Map3.time_to_seconds, h, Map3.padTo3]

theorem c2_amended_witness :
    Map3.time_to_seconds "7:08" = .ok (7 * 60 + 8) ∧
      Map3.time_to_seconds "bogus" = .error PyErr.valueError :=
  ⟨c2_amended.1 "7:08" 7 8 (by rfl), c2_amended.2.2.2.1 "bogus" (by rfl)⟩

/-- C6: get_color is not special-cased for a zero altitude range; with
min_altitude = max_altitude = 100 the normalization divides by zero
and raises ZeroDivisionError instead of producing a constant color. -/
theorem c6_counterexample :
    MapPy.get_color 100 100 100 = .error PyErr.zeroDivisionError := by
  simp [MapPy.get_color]

/-- C6 (amended): get_color normalizes unconditionally, so whenever all
records share one altitude (min_altitude = max_altitude) it raises
ZeroDivisionError rather than returning a constant color.  (The
function is never invoked by the script, so the error cannot surface
at runtime; map2.py and map3.py delegate coloring to an external
colormap.) -/
theorem c6_amended (alt m : ℚ) :
    MapPy.get_color alt m m = .error PyErr.zeroDivisionError := by
  simp [MapPy.get_color]

/-- C9: in map.py, the altitude of a record that lacks the altitude
field does not default to 0: the subscript access raises KeyError. -/
theorem c9_counterexample :
    MapPy.altitudes [⟨0, 0, "00:00:00", none⟩] = .error PyErr.keyError := by
  rfl

/-- C9 (amended): in map2.py and map3.py the altitude of a record that
lacks the altitude field defaults to 0 via .get and never raises; in
map.py the plain subscript access raises KeyError as soon as any
record lacks the field. -/
theorem c9_amended :
    (∀ (pts : List Pt) (i : ℕ) (h : i < pts.length),
        pts[i].altitude? = none → (Map3.altitudes pts).getD i 0 = 0) ∧
    (∀ (pts : List Pt) (p : Pt), p ∈ pts → p.altitude? = none →
        MapPy.altitudes pts = .error PyErr.keyError) := by
  constructor
  · intro pts i h hnone
    unfold Map3.altitudes
    rw [List.getD_eq_getElem?_getD, List.getElem?_map]
    rw [List.getElem?_eq_getElem h]
    simp [hnone]
  · intro pts
    induction pts with
    | nil => intro p hp; cases hp
    | cons q rest ih =>
      intro p hp hnone
      rcases List.mem_cons.mp hp with rfl | hmem
      · unfold MapPy.altitudes
        rw [hnone]
      · unfold MapPy.altitudes
        cases hq : q.altitude? with
        | none => rfl
        | some a => rw [ih p hmem hnone]; rfl

theorem c9_amended_witness :
    (Map3.altitudes [⟨1, 2, "", none⟩]).getD 0 0 = 0 ∧
      MapPy.altitudes [⟨1, 2, "", none⟩] = .error PyErr.keyError :=
  ⟨c9_amended.1 [⟨1, 2, "", none⟩] 0 (by simp) (by rfl),
   c9_amended.2 [⟨1, 2, "", none⟩] ⟨1, 2, "", none⟩ (by simp) (by rfl)⟩

theorem arctan_nonneg_of {t : ℝ} (h : 0 ≤ t) : 0 ≤ Real.arctan t := by
  have hm := Real.arctan_strictMono.monotone h
  rwa [Real.arctan_zero] at hm

theorem atan2_nonneg {y x : ℝ} (hy : 0 ≤ y) (hx : 0 ≤ x) : 0 ≤ atan2 y x := by
  unfold atan2
  split_ifs <;>
    first
      | exact arctan_nonneg_of (div_nonneg hy hx)
      | linarith [Real.pi_pos]

theorem haversine_nonneg (lon1 lat1 lon2 lat2 : ℝ) :
    0 ≤ Map3.haversine lon1 lat1 lon2 lat2 := by
  unfold Map3.haversine
  have h := atan2_nonneg (Real.sqrt_nonneg (Map3.havA lon1 lat1 lon2 lat2))
    (Real.sqrt_nonneg (1 - Map3.havA lon1 lat1 lon2 lat2))
  nlinarith

theorem havA_symm (lon1 lat1 lon2 lat2 : ℝ) :
    Map3.havA lon1 lat1 lon2 lat2 = Map3.havA lon2 lat2 lon1 lat1 := by
  unfold Map3.havA
  have h1 : radians (lat1 - lat2) = -(radians (lat2 - lat1)) := by
    unfold radians; ring
  have h2 : radians (lon1 - lon2) = -(radians (lon2 - lon1)) := by
    unfold radians; ring
  rw [h1, h2, neg_div, neg_div, Real.sin_neg, Real.sin_neg]
  ring

theorem havA_self (lon lat : ℝ) : Map3.havA lon lat lon lat = 0 := by
  unfold Map3.havA radians
  simp

/-- C10: the haversine distance is non-negative for all coordinates,
symmetric in its two points, and zero on identical points, so
consecutive duplicate positions contribute zero to the cumulative
distance. -/
theorem c10_haversine_props :
    (∀ lon1 lat1 lon2 lat2 : ℝ, 0 ≤ Map3.haversine lon1 lat1 lon2 lat2) ∧
    (∀ lon1 lat1 lon2 lat2 : ℝ,
        Map3.haversine lon1 lat1 lon2 lat2 = Map3.haversine lon2 lat2 lon1 lat1) ∧
    (∀ lon lat : ℝ, Map3.haversine lon lat lon lat = 0) := by
  refine ⟨haversine_nonneg, ?_, ?_⟩
  · intro lon1 lat1 lon2 lat2
    unfold Map3.haversine
    rw [havA_symm]
  · intro lon lat
    unfold Map3.haversine
    rw [havA_self]
    simp [atan2]

theorem metricsAux_ok (rest : List Pt) :
    ∀ (prev : Pt) (dacc : ℝ) (ds ss : List ℝ),
      Map3.metricsAux prev dacc rest = .ok (ds, ss) →
      ds = Map3.distAux prev dacc rest ∧ ss = Map3.speedAux prev rest := by
  induction rest with
  | nil =>
    intro prev dacc ds ss h
    simp only [Map3.metricsAux, Except.ok.injEq, Prod.mk.injEq] at h
    simp [Map3.distAux, Map3.speedAux, ← h.1, ← h.2]
  | cons curr rest ih =>
    intro prev dacc ds ss h
    unfold Map3.metricsAux at h
    cases hc : Map3.time_to_seconds curr.timestamp with
    | error e => rw [hc] at h; simp at h
    | ok tc =>
      cases hp : Map3.time_to_seconds prev.timestamp with
      | error e => rw [hc, hp] at h; simp at h
      | ok tp =>
        rw [hc, hp] at h
        cases hm : Map3.metricsAux curr
            (dacc + Map3.haversine prev.lng prev.lat curr.lng curr.lat) rest with
        | error e => rw [hm] at h; simp at h
        | ok pr =>
          rw [hm] at h
          simp only [Except.ok.injEq, Prod.mk.injEq] at h
          obtain ⟨hds, hss⟩ := h
          obtain ⟨ih1, ih2⟩ := ih curr _ pr.1 pr.2 (by rw [hm])
          subst hds hss
          constructor
          · rw [Map3.distAux, ← ih1]
          · rw [Map3.speedAux, ← ih2]
            have h1 : Map3.t2sD curr = tc := by unfold Map3.t2sD; rw [hc]
            have h2 : Map3.t2sD prev = tp := by unfold Map3.t2sD; rw [hp]
            rw [h1, h2]

theorem distAux_chain (rest : List Pt) :
    ∀ (prev : Pt) (acc : ℝ), List.Chain' (· ≤ ·) (acc :: Map3.distAux prev acc rest) := by
  induction rest with
  | nil => intro prev acc; simp [Map3.distAux]
  | cons curr rest ih =>
    intro prev acc
    rw [Map3.distAux]
    exact List.chain'_cons.mpr
      ⟨le_add_of_nonneg_right (haversine_nonneg prev.lng prev.lat curr.lng curr.lat),
       ih curr _⟩

theorem distAux_getD (rest : List Pt) :
    ∀ (prev : Pt) (acc : ℝ) (i : ℕ), i + 1 < (prev :: rest).length →
      (acc :: Map3.distAux prev acc rest).getD (i + 1) 0 =
        (acc :: Map3.distAux prev acc rest).getD i 0 +
          Map3.haversine ((prev :: rest).getD i ptDflt).lng
            ((prev :: rest).getD i ptDflt).lat
            ((prev :: rest).getD (i + 1) ptDflt).lng
            ((prev :: rest).getD (i + 1) ptDflt).lat := by
  induction rest with
  | nil => intro prev acc i h; simp at h
  | cons curr rest ih =>
    intro prev acc i h
    match i with
    | 0 => simp [Map3.distAux]
    | j + 1 =>
      have h' : j + 1 < (curr :: rest).length := by
        simp only [List.length_cons] at h ⊢
        omega
      have hrec := ih curr (acc + Map3.haversine prev.lng prev.lat curr.lng curr.lat) j h'
      rw [Map3.distAux]
      simp only [List.getD_cons_succ]
      simp only [List.getD_cons_succ] at hrec
      exact hrec

theorem speedAux_getD (rest : List Pt) :
    ∀ (prev : Pt) (i : ℕ), i + 1 < (prev :: rest).length →
      (0 :: Map3.speedAux prev rest).getD (i + 1) 0 =
        Map3.haversine ((prev :: rest).getD i ptDflt).lng
          ((prev :: rest).getD i ptDflt).lat
          ((prev :: rest).getD (i + 1) ptDflt).lng
          ((prev :: rest).getD (i + 1) ptDflt).lat /
          ((max (Map3.t2sD ((prev :: rest).getD (i + 1) ptDflt) -
              Map3.t2sD ((prev :: rest).getD i ptDflt)) 1 : ℤ) : ℝ) * 3600 := by
  induction rest with
  | nil => intro prev i h; simp at h
  | cons curr rest ih =>
    intro prev i h
    match i with
    | 0 => simp [Map3.speedAux]
    | j + 1 =>
      have h' : j + 1 < (curr :: rest).length := by
        simp only [List.length_cons] at h ⊢
        omega
      have hrec := ih curr j h'
      rw [Map3.speedAux]
      simp only [List.getD_cons_succ]
      simp only [List.getD_cons_succ] at hrec
      exact hrec

/-- C3: whenever the metrics loop completes, the distances list starts
at 0, each entry adds the haversine distance (Earth radius 6371 km)
between the adjacent records to the previous entry, and the whole
cumulative-distance list is monotonically non-decreasing. -/
theorem c3_distances (pts : List Pt) (ds ss : List ℝ)
    (h : Map3.metrics pts = .ok (ds, ss)) :
    ds.getD 0 0 = 0 ∧
    (∀ i, i + 1 < pts.length →
      ds.getD (i + 1) 0 = ds.getD i 0 +
        Map3.haversine (pts.getD i ptDflt).lng (pts.getD i ptDflt).lat
          (pts.getD (i + 1) ptDflt).lng (pts.getD (i + 1) ptDflt).lat) ∧
    List.Chain' (· ≤ ·) ds := by
  cases pts with
  | nil =>
    simp only [Map3.metrics, Except.ok.injEq, Prod.mk.injEq] at h
    obtain ⟨h1, h2⟩ := h
    subst h1
    refine ⟨rfl, fun i hi => by simp at hi, by simp⟩
  | cons p rest =>
    simp only [Map3.metrics] at h
    cases hm : Map3.metricsAux p 0 rest with
    | error e => rw [hm] at h; simp at h
    | ok pr =>
      rw [hm] at h
      simp only [Except.ok.injEq, Prod.mk.injEq] at h
      obtain ⟨hds, hss⟩ := h
      have hchar := metricsAux_ok rest p 0 pr.1 pr.2 (by rw [hm])
      subst hds hss
      rw [hchar.1]
      refine ⟨by simp, ?_, distAux_chain rest p 0⟩
      intro i hi
      exact distAux_getD rest p 0 i hi

theorem c3_distances_witness :
    ([(0 : ℝ), 0 + Map3.haversine 2 1 2 1].getD 0 0 = 0) ∧
    ([(0 : ℝ), 0 + Map3.haversine 2 1 2 1].getD 1 0 =
      [(0 : ℝ), 0 + Map3.haversine 2 1 2 1].getD 0 0 + Map3.haversine 2 1 2 1) ∧
    List.Chain' (· ≤ ·) [(0 : ℝ), 0 + Map3.haversine 2 1 2 1] := by
  have h : Map3.metrics
      [(⟨1, 2, "00:00:00", none⟩ : Pt), (⟨1, 2, "00:01:00", none⟩ : Pt)] =
      .ok ([0, 0 + Map3.haversine 2 1 2 1],
        [0, Map3.haversine 2 1 2 1 / ((max ((60 : ℤ) - 0) 1 : ℤ) : ℝ) * 3600]) := by
    rfl
  have c := c3_distances _ _ _ h
  exact ⟨c.1, by simpa using c.2.1 0 (by norm_num), c.2.2⟩

/-- C5: whenever the metrics loop completes, speed[0] = 0 and each
later speed is the haversine distance divided by dt and scaled to
km/h, where dt is the raw difference of the two timestamp second
counts floored at 1; the divisor is always at least 1 (so the speed is
a well-defined finite number), and two records with the same timestamp
string give divisor exactly 1. -/
theorem c5_speed_floor (pts : List Pt) (ds ss : List ℝ)
    (h : Map3.metrics pts = .ok (ds, ss)) :
    ss.getD 0 0 = 0 ∧
    (∀ i, i + 1 < pts.length → ∀ tc tp,
      Map3.time_to_seconds (pts.getD (i + 1) ptDflt).timestamp = .ok tc →
      Map3.time_to_seconds (pts.getD i ptDflt).timestamp = .ok tp →
      ss.getD (i + 1) 0 =
        Map3.haversine (pts.getD i ptDflt).lng (pts.getD i ptDflt).lat
          (pts.getD (i + 1) ptDflt).lng (pts.getD (i + 1) ptDflt).lat /
          ((max (tc - tp) 1 : ℤ) : ℝ) * 3600 ∧
        (1 : ℤ) ≤ max (tc - tp) 1) ∧
    (∀ i, i + 1 < pts.length →
      (pts.getD (i + 1) ptDflt).timestamp = (pts.getD i ptDflt).timestamp →
      ∀ tc, Map3.time_to_seconds (pts.getD i ptDflt).timestamp = .ok tc →
      ss.getD (i + 1) 0 =
        Map3.haversine (pts.getD i ptDflt).lng (pts.getD i ptDflt).lat
          (pts.getD (i + 1) ptDflt).lng (pts.getD (i + 1) ptDflt).lat /
          ((1 : ℤ) : ℝ) * 3600) := by
  have main : ∀ i, i + 1 < pts.length → ∀ tc tp,
      Map3.time_to_seconds (pts.getD (i + 1) ptDflt).timestamp = .ok tc →
      Map3.time_to_seconds (pts.getD i ptDflt).timestamp = .ok tp →
      ss.getD (i + 1) 0 =
        Map3.haversine (pts.getD i ptDflt).lng (pts.getD i ptDflt).lat
          (pts.getD (i + 1) ptDflt).lng (pts.getD (i + 1) ptDflt).lat /
          ((max (tc - tp) 1 : ℤ) : ℝ) * 3600 := by
    cases pts with
    | nil => intro i hi; simp at hi
    | cons p rest =>
      simp only [Map3.metrics] at h
      cases hm : Map3.metricsAux p 0 rest with
      | error e => rw [hm] at h; simp at h
      | ok pr =>
        rw [hm] at h
        simp only [Except.ok.injEq, Prod.mk.injEq] at h
        obtain ⟨hds, hss⟩ := h
        have hchar := metricsAux_ok rest p 0 pr.1 pr.2 (by rw [hm])
        subst hss
        rw [hchar.2]
        intro i hi tc tp htc htp
        have hr := speedAux_getD rest p i hi
        rw [hr]
        have h1 : Map3.t2sD ((p :: rest).getD (i + 1) ptDflt) = tc := by
          unfold Map3.t2sD; rw [htc]
        have h2 : Map3.t2sD ((p :: rest).getD i ptDflt) = tp := by
          unfold Map3.t2sD; rw [htp]
        rw [h1, h2]
  have head0 : ss.getD 0 0 = 0 := by
    cases pts with
    | nil =>
      simp only [Map3.metrics, Except.ok.injEq, Prod.mk.injEq] at h
      rw [← h.2]
      rfl
    | cons p rest =>
      simp only [Map3.metrics] at h
      cases hm : Map3.metricsAux p 0 rest with
      | error e => rw [hm] at h; simp at h
      | ok pr =>
        rw [hm] at h
        simp only [Except.ok.injEq, Prod.mk.injEq] at h
        rw [← h.2]
        rfl
  refine ⟨head0, fun i hi tc tp htc htp => ⟨main i hi tc tp htc htp, le_max_right _ _⟩, ?_⟩
  intro i hi hts tc htc
  have := main i hi tc tc (by rw [hts, htc]) htc
  simpa using this

theorem c5_speed_floor_witness :
    ([(0 : ℝ), Map3.haversine 2 1 4 3 / ((max ((0 : ℤ) - 0) 1 : ℤ) : ℝ) * 3600].getD 0 0 = 0) ∧
    ([(0 : ℝ), Map3.haversine 2 1 4 3 / ((max ((0 : ℤ) - 0) 1 : ℤ) : ℝ) * 3600].getD 1 0 =
      Map3.haversine 2 1 4 3 / ((1 : ℤ) : ℝ) * 3600) := by
  have h : Map3.metrics
      [(⟨1, 2, "09:10:11", none⟩ : Pt), (⟨3, 4, "09:10:11", none⟩ : Pt)] =
      .ok ([0, 0 + Map3.haversine 2 1 4 3],
        [0, Map3.haversine 2 1 4 3 / ((max ((0 : ℤ) - 0) 1 : ℤ) : ℝ) * 3600]) := by
    rfl
  have c := c5_speed_floor _ _ _ h
  refine ⟨c.1, ?_⟩
  have := c.2.2 0 (by norm_num) (by rfl) ((9 : ℤ) * 3600 + 10 * 60 + 11) (by rfl)
  simpa using this

theorem pyFilterLatLng_sublist :
    ∀ (l r : List JVal), MapPy.pyFilterLatLng l = .ok r → r.Sublist l := by
  intro l
  induction l with
  | nil =>
    intro r h
    simp only [MapPy.pyFilterLatLng, Except.ok.injEq] at h
    subst h
    exact List.Sublist.refl _
  | cons p rest ih =>
    intro r h
    cases p with
    | obj fs =>
      cases hla : lookupLast fs "lat" with
      | none => simp [MapPy.pyFilterLatLng, hla] at h
      | some la =>
        by_cases hz : pyEqZero la = true
        · cases hlg : lookupLast fs "lng" with
          | none => simp [MapPy.pyFilterLatLng, hla, hlg, hz] at h
          | some lnv =>
            by_cases hz2 : pyEqZero lnv = true
            · simp only [MapPy.pyFilterLatLng, hla, hlg, if_pos hz, if_pos hz2] at h
              exact (ih r h).cons _
            · cases hrec : MapPy.pyFilterLatLng rest with
              | error e =>
                simp [MapPy.pyFilterLatLng, hla, hlg, hz, hz2, hrec, Except.map] at h
              | ok r' =>
                simp only [MapPy.pyFilterLatLng, hla, hlg, if_pos hz, if_neg hz2, hrec,
                  Except.map, Except.ok.injEq] at h
                subst h
                exact (ih r' hrec).cons₂ _
        · cases hrec : MapPy.pyFilterLatLng rest with
          | error e => simp [MapPy.pyFilterLatLng, hla, hz, hrec, Except.map] at h
          | ok r' =>
            simp only [MapPy.pyFilterLatLng, hla, if_neg hz, hrec,
              Except.map, Except.ok.injEq] at h
            subst h
            exact (ih r' hrec).cons₂ _
    | null => simp [MapPy.pyFilterLatLng] at h
    | bool b => simp [MapPy.pyFilterLatLng] at h
    | num m e => simp [MapPy.pyFilterLatLng] at h
    | str s => simp [MapPy.pyFilterLatLng] at h
    | arr es => simp [MapPy.pyFilterLatLng] at h

/-- C8: the records either parser outputs form a sublist of the decoded
objects, in original source order — the coordinate filters only drop
elements, so nothing is reordered and nothing is duplicated beyond
what the source contained.  For map.py this holds whenever
load_hike_data completes; map3.py's output is always a sublist of the
array its single decode produced. -/
theorem c8_order_preservation :
    (∀ (cs : List Char) (recs : List JVal) (diags : List (List Char × String)),
        MapPy.loadHikeDataL cs = .ok (recs, diags) →
        recs.Sublist (processFrags (MapPy.findallObjects (rstripCommaL (stripL cs)))).1) ∧
    (∀ cs : List Char, (Map3.loadDataL cs).1.Sublist (Map3.decoded3 cs)) := by
  constructor
  · intro cs recs diags h
    simp only [MapPy.loadHikeDataL] at h
    cases hf : MapPy.pyFilterLatLng
        (processFrags (MapPy.findallObjects (rstripCommaL (stripL cs)))).1 with
    | error e => rw [hf] at h; simp [Except.map] at h
    | ok r =>
      rw [hf] at h
      simp only [Except.map, Except.ok.injEq, Prod.mk.injEq] at h
      obtain ⟨h1, h2⟩ := h
      subst h1
      exact pyFilterLatLng_sublist _ _ hf
  · intro cs
    unfold Map3.loadDataL Map3.decoded3
    cases json_loadsL (Map3.wrapped3 cs) with
    | error e => simp
    | ok v => simp [List.filter_sublist]

theorem c8_order_preservation_witness :
    ([JVal.obj [("lat", JVal.num 1 0), ("lng", JVal.num 2 0)]] : List JVal).Sublist
      (processFrags (MapPy.findallObjects (rstripCommaL (stripL
        (String.toList "\x7b\"lat\":1,\"lng\":2\x7d"))))).1 :=
  c8_order_preservation.1 (String.toList "\x7b\"lat\":1,\"lng\":2\x7d")
    [JVal.obj [("lat", JVal.num 1 0), ("lng", JVal.num 2 0)]] [] (by rfl)

/-- C4: the validation filters do not require numeric lat and lng — a
record whose lat is missing entirely survives map2.py's filter, and a
record whose lat and lng are strings survives map3.py's filter, so
such records do appear in the parsers' outputs. -/
theorem c4_counterexample :
    Map2.load_data "\x7b\"lng\":5\x7d" = .ok ([JVal.obj [("lng", JVal.num 5 0)]], []) ∧
    Map3.load_data "\x7b\"lat\":\"x\",\"lng\":\"y\"\x7d" =
      ([JVal.obj [("lat", JVal.str "x"), ("lng", JVal.str "y")]], none) := by
  constructor <;> rfl

theorem validPoint3_unfold :
    ∀ p, Map3.validPoint3 p = true → ∃ fs la lnv,
      p = JVal.obj fs ∧ lookupLast fs "lat" = some la ∧
        lookupLast fs "lng" = some lnv ∧
        (pyEqZero la = false ∨ pyEqZero lnv = false) := by
  intro p hv
  cases p with
  | obj fs =>
    unfold Map3.validPoint3 hasKeyB at hv
    simp only [Bool.and_eq_true, Bool.or_eq_true] at hv
    obtain ⟨⟨hl, hg⟩, hor⟩ := hv
    obtain ⟨la, hla⟩ := Option.isSome_iff_exists.mp hl
    obtain ⟨lnv, hlg⟩ := Option.isSome_iff_exists.mp hg
    refine ⟨fs, la, lnv, rfl, hla, hlg, ?_⟩
    rw [hla, hlg] at hor
    simp only [Option.getD_some] at hor
    rcases hor with h1 | h1
    · left; simpa using h1
    · right; simpa using h1
  | null => simp [Map3.validPoint3] at hv
  | bool b => simp [Map3.validPoint3] at hv
  | num m e => simp [Map3.validPoint3] at hv
  | str s => simp [Map3.validPoint3] at hv
  | arr es => simp [Map3.validPoint3] at hv

theorem pyFilterGet_good :
    ∀ (l r : List JVal), Map2.pyFilterGet l = .ok r → ∀ p ∈ r, ∃ fs,
      p = JVal.obj fs ∧
        (pyEqZero ((lookupLast fs "lat").getD (JVal.num 1 0)) = false ∨
          pyEqZero ((lookupLast fs "lng").getD (JVal.num 1 0)) = false) := by
  intro l
  induction l with
  | nil =>
    intro r h p hp
    simp only [Map2.pyFilterGet, Except.ok.injEq] at h
    subst h
    cases hp
  | cons q rest ih =>
    intro r h p hp
    cases q with
    | obj fs =>
      by_cases hc : (!pyEqZero ((lookupLast fs "lat").getD (JVal.num 1 0)) ||
          !pyEqZero ((lookupLast fs "lng").getD (JVal.num 1 0))) = true
      · cases hrec : Map2.pyFilterGet rest with
        | error e => simp [Map2.pyFilterGet, hc, hrec, Except.map] at h
        | ok r' =>
          simp only [Map2.pyFilterGet, if_pos hc, hrec,
            Except.map, Except.ok.injEq] at h
          subst h
          rcases List.mem_cons.mp hp with rfl | hmem
          · refine ⟨fs, rfl, ?_⟩
            simpa using hc
          · exact ih r' hrec p hmem
      · simp only [Map2.pyFilterGet, if_neg hc] at h
        exact ih r h p hp
    | null => simp [Map2.pyFilterGet] at h
    | bool b => simp [Map2.pyFilterGet] at h
    | num m e => simp [Map2.pyFilterGet] at h
    | str s => simp [Map2.pyFilterGet] at h
    | arr es => simp [Map2.pyFilterGet] at h

/-- C4 (amended): the filters only test for presence and zero-ness, not
numeric type.  Every record in map3.py's output is a key-value object
with lat and lng bindings not both equal to 0 (of any type); every
record in map2.py's output is an object whose lat and lng bindings,
defaulting to 1 when absent, are not both equal to 0 — in particular a
record with lat = 0 and lng = 0 never appears in either output. -/
theorem c4_amended :
    (∀ (cs : List Char) (p : JVal), p ∈ (Map3.loadDataL cs).1 → ∃ fs la lnv,
        p = JVal.obj fs ∧ lookupLast fs "lat" = some la ∧
          lookupLast fs "lng" = some lnv ∧
          (pyEqZero la = false ∨ pyEqZero lnv = false)) ∧
    (∀ (cs : List Char) (recs : List JVal) (diags : List (List Char × String)),
        Map2.loadDataL cs = .ok (recs, diags) → ∀ p ∈ recs, ∃ fs,
          p = JVal.obj fs ∧
            (pyEqZero ((lookupLast fs "lat").getD (JVal.num 1 0)) = false ∨
              pyEqZero ((lookupLast fs "lng").getD (JVal.num 1 0)) = false)) := by
  constructor
  · intro cs p hp
    unfold Map3.loadDataL at hp
    cases hj : json_loadsL (Map3.wrapped3 cs) with
    | error e => rw [hj] at hp; simp at hp
    | ok v =>
      rw [hj] at hp
      simp only at hp
      exact validPoint3_unfold p (List.mem_filter.mp hp).2
  · intro cs recs diags h
    simp only [Map2.loadDataL] at h
    cases hf : Map2.pyFilterGet
        (processFrags (Map2.findallObjects (rstripCommaL (stripL cs)))).1 with
    | error e => rw [hf] at h; simp [Except.map] at h
    | ok r =>
      rw [hf] at h
      simp only [Except.map, Except.ok.injEq, Prod.mk.injEq] at h
      obtain ⟨h1, h2⟩ := h
      subst h1
      exact pyFilterGet_good _ _ hf

theorem c4_amended_witness :
    ∃ fs la lnv,
      JVal.obj [("lat", JVal.num 1 0), ("lng", JVal.num 2 0)] = JVal.obj fs ∧
        lookupLast fs "lat" = some la ∧ lookupLast fs "lng" = some lnv ∧
        (pyEqZero la = false ∨ pyEqZero lnv = false) :=
  c4_amended.1 (String.toList "\x7b\"lat\":1,\"lng\":2\x7d")
    (JVal.obj [("lat", JVal.num 1 0), ("lng", JVal.num 2 0)])
    (by
      rw [show (Map3.loadDataL (String.toList "\x7b\"lat\":1,\"lng\":2\x7d")).1 =
        [JVal.obj [("lat", JVal.num 1 0), ("lng", JVal.num 2 0)]] from rfl]
      exact List.mem_singleton.mpr rfl)

theorem dropWhile_eq_self_of_head {p : Char → Bool} {cs : List Char}
    (h : ∀ c, cs.head? = some c → p c = false) : cs.dropWhile p = cs := by
  cases cs with
  | nil => rfl
  | cons c rest => simp [List.dropWhile_cons, h c rfl]

theorem stripL_eq_self {cs : List Char}
    (h1 : ∀ c, cs.head? = some c → isPySpace c = false)
    (h2 : ∀ c, cs.getLast? = some c → isPySpace c = false) :
    stripL cs = cs := by
  unfold stripL
  rw [dropWhile_eq_self_of_head h1]
  rw [dropWhile_eq_self_of_head
    (by intro c hc; exact h2 c (by rwa [List.head?_reverse] at hc))]
  exact List.reverse_reverse cs

theorem rstripCommaL_eq_self {cs : List Char}
    (h : ∀ c, cs.getLast? = some c → c ≠ ',') : rstripCommaL cs = cs := by
  unfold rstripCommaL
  have h' : ∀ c, cs.reverse.head? = some c → decide (c = ',') = false := by
    intro c hc
    have hne := h c (by rwa [List.head?_reverse] at hc)
    simp [hne]
  rw [dropWhile_eq_self_of_head h', List.reverse_reverse]

theorem charIntercalate_cons (f g : List Char) (rest : List (List Char)) :
    charIntercalate (f :: g :: rest) = f ++ ',' :: charIntercalate (g :: rest) := rfl

theorem charIntercalate_head (g : List Char) (rest : List (List Char)) (gb : List Char)
    (hg : g = lbrace :: gb) :
    ∃ t, charIntercalate (g :: rest) = lbrace :: t := by
  cases rest with
  | nil => exact ⟨gb, by simp [charIntercalate, hg]⟩
  | cons x xs =>
    exact ⟨gb ++ ',' :: charIntercalate (x :: xs), by simp [charIntercalate_cons, hg]⟩

theorem charIntercalate_getLast_rbrace :
    ∀ (frags : List (List Char)), frags ≠ [] →
      (∀ f ∈ frags, ∃ body, f = lbrace :: body ++ [rbrace]) →
      (charIntercalate frags).getLast? = some rbrace := by
  intro frags
  induction frags with
  | nil => intro h; contradiction
  | cons f rest ih =>
    intro _ hshape
    cases rest with
    | nil =>
      obtain ⟨body, hf⟩ := hshape f (List.mem_cons_self f [])
      subst hf
      show (lbrace :: body ++ [rbrace]).getLast? = some rbrace
      rw [show lbrace :: body ++ [rbrace] = (lbrace :: body) ++ [rbrace] by simp]
      exact List.getLast?_concat _
    | cons g rest' =>
      rw [charIntercalate_cons]
      rw [List.getLast?_append_of_ne_nil _ (by simp)]
      obtain ⟨gbody, hg⟩ := hshape g (by simp)
      obtain ⟨t, ht⟩ := charIntercalate_head g rest' (gbody ++ [rbrace]) (by rw [hg]; rfl)
      rw [show (',' :: charIntercalate (g :: rest')).getLast? =
          (charIntercalate (g :: rest')).getLast? by rw [ht]; exact List.getLast?_cons_cons]
      exact ih (by simp) (fun x hx => hshape x (List.mem_cons_of_mem _ hx))

theorem lookaheadOk_comma (cs : List Char) :
    MapPy.lookaheadOk (',' :: lbrace :: cs) = true := rfl

theorem findallAux_cons_some (c : Char) (rest body : List Char) :
    MapPy.findallAux (c :: rest) (some body) =
      if c = rbrace then
        if MapPy.lookaheadOk rest then
          (lbrace :: body.reverse ++ [rbrace]) :: MapPy.findallAux rest none
        else MapPy.findallAux rest (some (rbrace :: body))
      else MapPy.findallAux rest (some (c :: body)) := rfl

theorem findallAux_cons_none (c : Char) (rest : List Char) :
    MapPy.findallAux (c :: rest) none =
      if c = lbrace then MapPy.findallAux rest (some [])
      else MapPy.findallAux rest none := rfl

theorem findallAux_no_close (cs : List Char) :
    ∀ acc, rbrace ∉ cs → MapPy.findallAux cs (some acc) = [] := by
  induction cs with
  | nil => intro acc _; rfl
  | cons c rest ih =>
    intro acc h
    have hc : ¬(c = rbrace) := fun hh => h (hh ▸ List.mem_cons_self c rest)
    rw [findallAux_cons_some, if_neg hc]
    exact ih _ (fun hm => h (List.mem_cons_of_mem _ hm))

theorem findallAux_body (body : List Char) :
    ∀ (acc tail : List Char), rbrace ∉ body → MapPy.lookaheadOk tail = true →
      MapPy.findallAux (body ++ rbrace :: tail) (some acc) =
        (lbrace :: (acc.reverse ++ body) ++ [rbrace]) :: MapPy.findallAux tail none := by
  induction body with
  | nil =>
    intro acc tail _ hla
    rw [List.nil_append, findallAux_cons_some, if_pos rfl, if_pos hla]
    simp
  | cons c body ih =>
    intro acc tail hnb hla
    have hc : ¬(c = rbrace) := fun hh => hnb (hh ▸ List.mem_cons_self c body)
    rw [show (c :: body) ++ rbrace :: tail = c :: (body ++ rbrace :: tail) by simp,
      findallAux_cons_some, if_neg hc,
      ih (c :: acc) tail (fun hm => hnb (List.mem_cons_of_mem _ hm)) hla]
    simp [List.append_assoc]

theorem findallObjects_intercalate :
    ∀ (frags : List (List Char)) (suffix : List Char),
      (∀ f ∈ frags, ∃ body, f = lbrace :: body ++ [rbrace] ∧ rbrace ∉ body) →
      MapPy.lookaheadOk suffix = true →
      MapPy.findallAux suffix none = [] →
      MapPy.findallAux (charIntercalate frags ++ suffix) none = frags := by
  intro frags
  induction frags with
  | nil =>
    intro suffix _ _ hnone
    simpa [charIntercalate] using hnone
  | cons f rest ih =>
    intro suffix h hla hnone
    obtain ⟨body, hf, hnb⟩ := h f (List.mem_cons_self f rest)
    cases rest with
    | nil =>
      subst hf
      show MapPy.findallAux ((lbrace :: body ++ [rbrace]) ++ suffix) none = _
      rw [show (lbrace :: body ++ [rbrace]) ++ suffix =
            lbrace :: (body ++ rbrace :: suffix) by simp,
        findallAux_cons_none, if_pos rfl,
        findallAux_body body [] suffix hnb hla, hnone]
      simp
    | cons g rest' =>
      subst hf
      obtain ⟨gbody, hg, _⟩ := h g (by simp)
      obtain ⟨t, ht⟩ := charIntercalate_head g rest' (gbody ++ [rbrace]) (by rw [hg]; rfl)
      rw [charIntercalate_cons]
      rw [show ((lbrace :: body ++ [rbrace]) ++ ',' :: charIntercalate (g :: rest')) ++ suffix =
            lbrace :: (body ++ rbrace :: ',' :: (charIntercalate (g :: rest') ++ suffix)) by
          simp]
      rw [findallAux_cons_none, if_pos rfl]
      have hla2 : MapPy.lookaheadOk (',' :: (charIntercalate (g :: rest') ++ suffix)) = true := by
        rw [ht, List.cons_append]
        exact lookaheadOk_comma _
      rw [findallAux_body body [] (',' :: (charIntercalate (g :: rest') ++ suffix)) hnb hla2]
      rw [findallAux_cons_none, if_neg (by decide : ¬(',' = lbrace))]
      rw [ih suffix (fun x hx => h x (List.mem_cons_of_mem _ hx)) hla hnone]
      simp

theorem processFrag_shaped (acc : List JVal × List (List Char × String)) (body : List Char) :
    processFrag acc (lbrace :: (body ++ [rbrace])) =
      match json_loadsL (lbrace :: (body ++ [rbrace])) with
      | .ok v => (acc.1 ++ [v], acc.2)
      | .error e => (acc.1, acc.2 ++ [((lbrace :: (body ++ [rbrace])).take 100, e)]) := by
  have hlast : (lbrace :: (body ++ [rbrace])).getLast? = some rbrace := by
    rw [show lbrace :: (body ++ [rbrace]) = (lbrace :: body) ++ [rbrace] from rfl]
    exact List.getLast?_concat _
  have hstrip : stripL (lbrace :: (body ++ [rbrace])) = lbrace :: (body ++ [rbrace]) := by
    apply stripL_eq_self
    · intro c hc
      simp only [List.head?_cons, Option.some.injEq] at hc
      subst hc
      rfl
    · intro c hc
      rw [hlast] at hc
      cases hc
      rfl
  simp only [processFrag, hstrip]
  rw [if_pos (show (lbrace :: (body ++ [rbrace])).head? = some lbrace from rfl)]
  rw [if_pos hlast]

theorem processFrags_spec :
    ∀ (frags : List (List Char)) (acc : List JVal × List (List Char × String)),
      (∀ f ∈ frags, ∃ body, f = lbrace :: body ++ [rbrace]) →
      frags.foldl processFrag acc =
        (acc.1 ++ frags.filterMap decodedOk, acc.2 ++ frags.filterMap diagOf) := by
  intro frags
  induction frags with
  | nil => intro acc _; simp
  | cons f rest ih =>
    intro acc h
    obtain ⟨body, hf⟩ := h f (List.mem_cons_self f rest)
    rw [List.foldl_cons]
    have hf' : f = lbrace :: (body ++ [rbrace]) := by rw [hf]; simp
    clear hf
    subst hf'
    cases hj : json_loadsL (lbrace :: (body ++ [rbrace])) with
    | ok v =>
      have step : processFrag acc (lbrace :: (body ++ [rbrace])) = (acc.1 ++ [v], acc.2) := by
        rw [processFrag_shaped, hj]
      rw [step, ih (acc.1 ++ [v], acc.2) (fun x hx => h x (List.mem_cons_of_mem _ hx))]
      simp [decodedOk, diagOf, hj, List.filterMap_cons, Except.toOption, List.append_assoc]
    | error e =>
      have step : processFrag acc (lbrace :: (body ++ [rbrace])) =
          (acc.1, acc.2 ++ [((lbrace :: (body ++ [rbrace])).take 100, e)]) := by
        rw [processFrag_shaped, hj]
      rw [step, ih _ (fun x hx => h x (List.mem_cons_of_mem _ hx))]
      simp [decodedOk, diagOf, hj, List.filterMap_cons, Except.toOption, List.append_assoc]

theorem pyFilterLatLng_all_good :
    ∀ (l : List JVal), (∀ p ∈ l, isGoodRecord p = true) →
      MapPy.pyFilterLatLng l = .ok l := by
  intro l
  induction l with
  | nil => intro _; rfl
  | cons p rest ih =>
    intro h
    have hp := h p (List.mem_cons_self p rest)
    have hrest := ih (fun q hq => h q (List.mem_cons_of_mem _ hq))
    cases p with
    | obj fs =>
      simp only [isGoodRecord] at hp
      cases hla : lookupLast fs "lat" with
      | none => rw [hla] at hp; simp at hp
      | some la =>
        cases hlg : lookupLast fs "lng" with
        | none => rw [hla, hlg] at hp; simp at hp
        | some lnv =>
          rw [hla, hlg] at hp
          by_cases hz : pyEqZero la = true
          · have hz2 : pyEqZero lnv = false := by
              rcases (by simpa using hp : pyEqZero la = false ∨ pyEqZero lnv = false)
                with h1 | h1
              · rw [h1] at hz; cases hz
              · exact h1
            simp only [MapPy.pyFilterLatLng, hla, hlg, if_pos hz,
              if_neg (by simp [hz2] : ¬(pyEqZero lnv = true))]
            rw [hrest]
            rfl
          · simp only [MapPy.pyFilterLatLng, hla, if_neg hz]
            rw [hrest]
            rfl
    | null => simp [isGoodRecord] at hp
    | bool b => simp [isGoodRecord] at hp
    | num m e => simp [isGoodRecord] at hp
    | str s => simp [isGoodRecord] at hp
    | arr es => simp [isGoodRecord] at hp

theorem decodedOk_good (frags : List (List Char))
    (hclass : ∀ f ∈ frags, isGoodFrag f = true ∨ (json_loadsL f).isOk = false) :
    ∀ p ∈ frags.filterMap decodedOk, isGoodRecord p = true := by
  intro p hp
  rw [List.mem_filterMap] at hp
  obtain ⟨f, hf, hd⟩ := hp
  unfold decodedOk at hd
  cases hj : json_loadsL f with
  | error e => rw [hj] at hd; cases hd
  | ok v =>
    rw [hj] at hd
    simp only [Except.toOption, Option.some.injEq] at hd
    subst hd
    rcases hclass f hf with hg | hbad
    · unfold isGoodFrag at hg; rw [hj] at hg; exact hg
    · rw [hj] at hbad; cases hbad

theorem decodedOk_length :
    ∀ (frags : List (List Char)),
      (∀ f ∈ frags, isGoodFrag f = true ∨ (json_loadsL f).isOk = false) →
      (frags.filterMap decodedOk).length = (frags.filter isGoodFrag).length := by
  intro frags
  induction frags with
  | nil => intro _; rfl
  | cons f rest ih =>
    intro h
    cases hj : json_loadsL f with
    | ok v =>
      have hg : isGoodFrag f = true := by
        rcases h f (List.mem_cons_self f rest) with h1 | h1
        · exact h1
        · rw [hj] at h1; cases h1
      simp [List.filterMap_cons, List.filter_cons, decodedOk, hj, hg, Except.toOption,
        ih (fun g hgm => h g (List.mem_cons_of_mem _ hgm))]
    | error e =>
      have hg : isGoodFrag f = false := by unfold isGoodFrag; rw [hj]
      simp [List.filterMap_cons, List.filter_cons, decodedOk, hj, hg, Except.toOption,
        ih (fun g hgm => h g (List.mem_cons_of_mem _ hgm))]

/-- C1: map3.py's load_data is not resilient to malformed fragments —
one malformed fragment makes its single json.loads call fail, so it
returns zero records even though the input contains a syntactically
valid record fragment (which, alone, parses to one record). -/
theorem c1_counterexample :
    Map3.load_data "\x7b\"lat\":1,\"lng\":2\x7d,oops" = ([], some "Expecting value") ∧
    (Map3.load_data "\x7b\"lat\":1,\"lng\":2\x7d").1 =
      [JVal.obj [("lat", JVal.num 1 0), ("lng", JVal.num 2 0)]] := by
  constructor <;> rfl

/-- C1 (amended): map.py's load_hike_data is resilient for comma-joined
brace-delimited fragments with brace-free interiors: every fragment
that decodes to a valid record (numeric-or-not lat/lng present, not
both zero) appears in the output in order, every fragment that fails
decoding contributes exactly one diagnostic and is skipped, the run
completes without aborting, and the record count equals the number of
good fragments.  map3.py's load_data, by contrast, returns zero
records as soon as any fragment is malformed (see the
counterexample). -/
theorem c1_amended (frags : List (List Char))
    (hshape : ∀ f ∈ frags, ∃ body, f = lbrace :: body ++ [rbrace] ∧ rbrace ∉ body)
    (hclass : ∀ f ∈ frags, isGoodFrag f = true ∨ (json_loadsL f).isOk = false) :
    MapPy.loadHikeDataL (charIntercalate frags) =
      .ok (frags.filterMap decodedOk, frags.filterMap diagOf) ∧
    (frags.filterMap decodedOk).length = (frags.filter isGoodFrag).length := by
  refine ⟨?_, decodedOk_length frags hclass⟩
  have hclean : rstripCommaL (stripL (charIntercalate frags)) = charIntercalate frags := by
    cases frags with
    | nil => rfl
    | cons f rest =>
      have hlast : (charIntercalate (f :: rest)).getLast? = some rbrace :=
        charIntercalate_getLast_rbrace (f :: rest) (by simp)
          (fun x hx => (hshape x hx).imp fun b hb => hb.1)
      obtain ⟨body, hf, _⟩ := hshape f (List.mem_cons_self f rest)
      obtain ⟨t, ht⟩ := charIntercalate_head f rest (body ++ [rbrace]) (by rw [hf]; simp)
      have hhead : ∀ c, (charIntercalate (f :: rest)).head? = some c →
          isPySpace c = false := by
        intro c hc
        rw [ht] at hc
        simp only [List.head?_cons, Option.some.injEq] at hc
        subst hc
        rfl
      have hlastS : ∀ c, (charIntercalate (f :: rest)).getLast? = some c →
          isPySpace c = false := by
        intro c hc
        rw [hlast] at hc
        cases hc
        rfl
      rw [stripL_eq_self hhead hlastS]
      exact rstripCommaL_eq_self (fun c hc => by
        rw [hlast] at hc
        cases hc
        decide)
  simp only [MapPy.loadHikeDataL]
  rw [hclean]
  have hfind : MapPy.findallObjects (charIntercalate frags) = frags := by
    have hmain := findallObjects_intercalate frags [] hshape (by rfl) (by rfl)
    rw [List.append_nil] at hmain
    exact hmain
  rw [hfind]
  rw [show processFrags frags =
      ([] ++ frags.filterMap decodedOk, [] ++ frags.filterMap diagOf) from
    processFrags_spec frags ([], []) (fun x hx => (hshape x hx).imp fun b hb => hb.1)]
  simp only [List.nil_append]
  rw [pyFilterLatLng_all_good _ (decodedOk_good frags hclass)]
  rfl

theorem c1_amended_witness :
    MapPy.loadHikeDataL (charIntercalate
        [String.toList "\x7b\"lat\":1,\"lng\":2\x7d",
         String.toList "\x7b\"bad\":\x7d",
         String.toList "\x7b\"lat\":3,\"lng\":4\x7d"]) =
      .ok ([String.toList "\x7b\"lat\":1,\"lng\":2\x7d",
            String.toList "\x7b\"bad\":\x7d",
            String.toList "\x7b\"lat\":3,\"lng\":4\x7d"].filterMap decodedOk,
           [String.toList "\x7b\"lat\":1,\"lng\":2\x7d",
            String.toList "\x7b\"bad\":\x7d",
            String.toList "\x7b\"lat\":3,\"lng\":4\x7d"].filterMap diagOf) ∧
    ([String.toList "\x7b\"lat\":1,\"lng\":2\x7d",
      String.toList "\x7b\"bad\":\x7d",
      String.toList "\x7b\"lat\":3,\"lng\":4\x7d"].filterMap decodedOk).length =
    ([String.toList "\x7b\"lat\":1,\"lng\":2\x7d",
      String.toList "\x7b\"bad\":\x7d",
      String.toList "\x7b\"lat\":3,\"lng\":4\x7d"].filter isGoodFrag).length :=
  c1_amended
    [String.toList "\x7b\"lat\":1,\"lng\":2\x7d",
     String.toList "\x7b\"bad\":\x7d",
     String.toList "\x7b\"lat\":3,\"lng\":4\x7d"]
    (by
      intro f hf
      simp only [List.mem_cons, List.not_mem_nil, or_false] at hf
      rcases hf with rfl | rfl | rfl
      · exact ⟨String.toList "\"lat\":1,\"lng\":2", by rfl, by decide⟩
      · exact ⟨String.toList "\"bad\":", by rfl, by decide⟩
      · exact ⟨String.toList "\"lat\":3,\"lng\":4", by rfl, by decide⟩)
    (by
      intro f hf
      simp only [List.mem_cons, List.not_mem_nil, or_false] at hf
      rcases hf with rfl | rfl | rfl
      · exact Or.inl (by rfl)
      · exact Or.inr (by rfl)
      · exact Or.inl (by rfl))

/-- C7: a truncated object missing its closing brace is neither
auto-closed and validated nor dropped with a diagnostic — map.py's
regex never captures it, so it is dropped silently: one record and
zero diagnostics come out of an input with one well-formed object, a
comma, and a truncated object. -/
theorem c7_counterexample :
    MapPy.load_hike_data "\x7b\"lat\":1,\"lng\":2\x7d,\x7b\"lat\":3" =
      .ok ([JVal.obj [("lat", JVal.num 1 0), ("lng", JVal.num 2 0)]], []) := by
  rfl

/-- C7 (amended): for well-formed comma-joined fragments followed by a
comma and a truncated object (a left brace whose tail contains no
closing brace), map.py's load_hike_data drops the truncated object
silently — the boundary regex only returns brace-closed matches, so
the auto-close branch never fires and no diagnostic is emitted for the
truncated tail — and the valid record count equals the number of
well-formed objects. -/
theorem c7_amended (frags : List (List Char)) (garbage : List Char)
    (hshape : ∀ f ∈ frags, ∃ body, f = lbrace :: body ++ [rbrace] ∧ rbrace ∉ body)
    (hclass : ∀ f ∈ frags, isGoodFrag f = true ∨ (json_loadsL f).isOk = false)
    (hg1 : rbrace ∉ garbage)
    (hg2 : ∀ c, garbage.getLast? = some c → isPySpace c = false ∧ c ≠ ',') :
    MapPy.loadHikeDataL (charIntercalate frags ++ ',' :: lbrace :: garbage) =
      .ok (frags.filterMap decodedOk, frags.filterMap diagOf) := by
  have hsla : MapPy.lookaheadOk (',' :: lbrace :: garbage) = true := lookaheadOk_comma garbage
  have hsnone : MapPy.findallAux (',' :: lbrace :: garbage) none = [] := by
    rw [findallAux_cons_none, if_neg (by decide : ¬(',' = lbrace)),
      findallAux_cons_none, if_pos rfl]
    exact findallAux_no_close garbage [] hg1
  have hlast : ∀ c, (charIntercalate frags ++ ',' :: lbrace :: garbage).getLast? = some c →
      isPySpace c = false ∧ c ≠ ',' := by
    intro c hc
    rw [List.getLast?_append_of_ne_nil _ (by simp)] at hc
    cases garbage with
    | nil =>
      simp only [List.getLast?_cons_cons] at hc
      cases hc
      exact ⟨rfl, by decide⟩
    | cons x xs =>
      rw [List.getLast?_cons_cons, List.getLast?_cons_cons] at hc
      exact hg2 c hc
  have hhead : ∀ c, (charIntercalate frags ++ ',' :: lbrace :: garbage).head? = some c →
      isPySpace c = false := by
    intro c hc
    cases frags with
    | nil =>
      simp only [charIntercalate, List.nil_append, List.head?_cons,
        Option.some.injEq] at hc
      subst hc
      rfl
    | cons f rest =>
      obtain ⟨body, hf, _⟩ := hshape f (List.mem_cons_self f rest)
      obtain ⟨t, ht⟩ := charIntercalate_head f rest (body ++ [rbrace]) (by rw [hf]; simp)
      rw [ht] at hc
      simp only [List.cons_append, List.head?_cons, Option.some.injEq] at hc
      subst hc
      rfl
  have hclean : rstripCommaL (stripL (charIntercalate frags ++ ',' :: lbrace :: garbage)) =
      charIntercalate frags ++ ',' :: lbrace :: garbage := by
    rw [stripL_eq_self hhead (fun c hc => (hlast c hc).1)]
    exact rstripCommaL_eq_self (fun c hc => (hlast c hc).2)
  simp only [MapPy.loadHikeDataL]
  rw [hclean]
  rw [show MapPy.findallObjects (charIntercalate frags ++ ',' :: lbrace :: garbage) = frags from
    findallObjects_intercalate frags (',' :: lbrace :: garbage) hshape hsla hsnone]
  rw [show processFrags frags =
      ([] ++ frags.filterMap decodedOk, [] ++ frags.filterMap diagOf) from
    processFrags_spec frags ([], []) (fun x hx => (hshape x hx).imp fun b hb => hb.1)]
  simp only [List.nil_append]
  rw [pyFilterLatLng_all_good _ (decodedOk_good frags hclass)]
  rfl

theorem c7_amended_witness :
    MapPy.loadHikeDataL (charIntercalate [String.toList "\x7b\"lat\":1,\"lng\":2\x7d"] ++
        ',' :: lbrace :: String.toList "\"lat\":3") =
      .ok ([String.toList "\x7b\"lat\":1,\"lng\":2\x7d"].filterMap decodedOk,
           [String.toList "\x7b\"lat\":1,\"lng\":2\x7d"].filterMap diagOf) :=
  c7_amended [String.toList "\x7b\"lat\":1,\"lng\":2\x7d"] (String.toList "\"lat\":3")
    (by
      intro f hf
      simp only [List.mem_cons, List.not_mem_nil, or_false] at hf
      subst hf
      exact ⟨String.toList "\"lat\":1,\"lng\":2", by rfl, by decide⟩)
    (by
      intro f hf
      simp only [List.mem_cons, List.not_mem_nil, or_false] at hf
      subst hf
      exact Or.inl (by rfl))
    (by decide)
    (by
      intro c hc
      rw [show (String.toList "\"lat\":3").getLast? = some '3' from rfl] at hc
      cases hc
      exact ⟨rfl, by decide⟩)
